import Mathlib

/-!
Verification of the `rust-template-full` repository against its
natural-language specification.

The development shallowly embeds the parts of the code the claims are
about:

* the utility library of `src/lib.rs` (`factorial`, `fibonacci_optimized`,
  `is_prime`, the `string_utils` module) and the naive `fibonacci` of
  `src/main.rs`: `u64` values are modelled as `Nat` with arithmetic
  reduced modulo `2 ^ 64` where the source can overflow (the wrapping
  semantics of release-profile Rust);
* the `User` entity of `src/lib.rs`;
* the repository of `src/db.rs` and the handlers of
  `src/api/handlers.rs`: the SQL store is modelled as an in-memory list
  of rows, and the handlers as pure functions from store and request to
  response and store.
-/

set_option maxRecDepth 8000

/-- Modulus of the 64-bit unsigned integers (`u64`) used by the numeric
library; arithmetic that can overflow is reduced modulo this value. -/
def U64 : Nat := 2 ^ 64

/-- The fold of the Rust iterator expression `(2..=n).product()` over
`u64`: the numbers `2, 3, …, n` multiplied left to right starting from
`1`, each multiplication reduced modulo `2 ^ 64`. -/
def prodFrom2 (n : Nat) : Nat :=
  (List.range' 2 (n - 1)).foldl (fun acc i => acc * i % U64) 1

/-- `factorial` from `src/lib.rs`:
`match n { 0 | 1 => 1, _ => (2..=n).product() }`. -/
def factorial (n : Nat) : Nat :=
  match n with
  | 0 => 1
  | 1 => 1
  | _ => prodFrom2 n

/-- The body of the `for _ in 2..=n` loop of `fibonacci_optimized` in
`src/lib.rs`, iterated `k` times on the pair `(prev, curr)`; the `u64`
addition `prev + curr` is reduced modulo `2 ^ 64`. -/
def fibLoop : Nat → Nat → Nat → Nat
  | 0, _, curr => curr
  | k + 1, prev, curr => fibLoop k curr ((prev + curr) % U64)

/-- `fibonacci_optimized` from `src/lib.rs`: returns `0` for `n = 0`,
`1` for `n = 1`, and otherwise runs the iteration `n - 1` times starting
from `prev = 0`, `curr = 1`. -/
def fibonacci_optimized (n : Nat) : Nat :=
  if n = 0 then 0
  else if n = 1 then 1
  else fibLoop (n - 1) 0 1

/-- The naive recursive `fibonacci` from `src/main.rs`:
`match n { 0 => 0, 1 => 1, _ => fibonacci(n-1) + fibonacci(n-2) }`,
the `u64` addition reduced modulo `2 ^ 64`. -/
def fibonacci : Nat → Nat
  | 0 => 0
  | 1 => 1
  | n + 2 => (fibonacci (n + 1) + fibonacci n) % U64

/-- `string_utils::reverse` from `src/lib.rs`:
`s.chars().rev().collect()` — the string rebuilt from the reversed
sequence of its characters. -/
def reverse (s : String) : String :=
  String.mk s.data.reverse

/-- The `User` entity of `src/lib.rs`. -/
structure User where
  id : Nat
  name : String
  email : String
  active : Bool
deriving DecidableEq, Repr

/-- `User::new` from `src/lib.rs`: `active` defaults to `true`. -/
def User.new (id : Nat) (name email : String) : User :=
  { id := id, name := name, email := email, active := true }

/-- `User::deactivate` from `src/lib.rs`: sets `active` to `false`. -/
def User.deactivate (u : User) : User :=
  { u with active := false }

/-- `User::activate` from `src/lib.rs`: sets `active` to `true`. -/
def User.activate (u : User) : User :=
  { u with active := true }

lemma prodFrom2_eq (k : Nat) :
    (List.range' 2 k).foldl (fun acc i => acc * i % U64) 1
      = Nat.factorial (k + 1) % U64 := by
  induction k with
  | zero =>
    show 1 = 1 % U64
    decide
  | succ k ih =>
    rw [List.range'_1_concat, List.foldl_append, ih]
    show Nat.factorial (k + 1) % U64 * (2 + k) % U64 = _
    rw [Nat.mod_mul_mod]
    congr 1
    have h2 : Nat.factorial (k + 1 + 1) = (k + 1 + 1) * Nat.factorial (k + 1) :=
      Nat.factorial_succ (k + 1)
    rw [h2]
    ring

lemma factorial_eq_mod (n : Nat) : factorial n = Nat.factorial n % U64 := by
  match n with
  | 0 =>
    show 1 = 1 % U64
    decide
  | 1 =>
    show 1 = 1 % U64
    decide
  | n + 2 =>
    show prodFrom2 (n + 2) = _
    unfold prodFrom2
    have h : n + 2 - 1 = n + 1 := rfl
    rw [h, prodFrom2_eq]

lemma fibLoop_eq (k : Nat) :
    ∀ m, fibLoop k (fibonacci m) (fibonacci (m + 1)) = fibonacci (m + k + 1) := by
  induction k with
  | zero => intro m; rfl
  | succ k ih =>
    intro m
    show fibLoop k (fibonacci (m + 1)) ((fibonacci m + fibonacci (m + 1)) % U64)
      = fibonacci (m + (k + 1) + 1)
    have h2 : (fibonacci m + fibonacci (m + 1)) % U64 = fibonacci (m + 1 + 1) := by
      show _ = (fibonacci (m + 1) + fibonacci m) % U64
      rw [Nat.add_comm]
    rw [h2, ih (m + 1)]
    congr 1
    omega

/-- C1 counterexample: at `n = 21` the true product of `2..=21` exceeds
the representable range of `u64`, yet `factorial` does not fail — it
silently returns the product reduced modulo `2 ^ 64`, a value different
from the mathematical factorial. No `ArithmeticOverflow` failure exists
in the code; `factorial` is a total function into `u64`. -/
theorem factorial_21_wraps_silently :
    U64 ≤ Nat.factorial 21
      ∧ factorial 21 = Nat.factorial 21 % U64
      ∧ factorial 21 ≠ Nat.factorial 21 := by
  refine ⟨by decide, by decide, by decide⟩

/-- C1 (amended): `factorial n` returns `1` for `n ∈ {0, 1}` and
otherwise the product of the integers `2` through `n` reduced modulo
`2 ^ 64`; whenever that product fits in `u64` the result is the exact
product, and when it exceeds the representable range the function wraps
silently rather than failing with an `ArithmeticOverflow` error. -/
theorem factorial_spec (n : Nat) :
    factorial n = Nat.factorial n % U64
      ∧ (Nat.factorial n < U64 → factorial n = Nat.factorial n) := by
  refine ⟨factorial_eq_mod n, fun h => ?_⟩
  rw [factorial_eq_mod n, Nat.mod_eq_of_lt h]

/-- Witness for C1's amended theorem at the spec's own test points. -/
theorem factorial_spec_witness :
    factorial 10 = 3628800 ∧ factorial 5 = 120 ∧ factorial 0 = 1 ∧ factorial 1 = 1 := by
  refine ⟨?_, ?_, rfl, rfl⟩
  · rw [(factorial_spec 10).2 (by decide)]
    decide
  · rw [(factorial_spec 5).2 (by decide)]
    decide

/-- C2: the iterative `fibonacci_optimized` of `src/lib.rs` agrees with
the naive recursive `fibonacci` of `src/main.rs` on every input, and
`fibonacci_optimized 0 = 0`, `fibonacci_optimized 1 = 1`. -/
theorem fibonacci_optimized_eq_naive :
    (∀ n, fibonacci_optimized n = fibonacci n)
      ∧ fibonacci_optimized 0 = 0 ∧ fibonacci_optimized 1 = 1 := by
  refine ⟨fun n => ?_, rfl, rfl⟩
  match n with
  | 0 => rfl
  | 1 => rfl
  | n + 2 =>
    show fibLoop (n + 1) 0 1 = fibonacci (n + 2)
    have h := fibLoop_eq (n + 1) 0
    show fibLoop (n + 1) (fibonacci 0) (fibonacci 1) = fibonacci (n + 2)
    rw [h]
    congr 1
    omega

/-- C9: reversing a string twice gives back the original string, and
`reverse "hello" = "olleh"`; `reverse` acts on the character sequence. -/
theorem reverse_reverse_eq_self :
    (∀ s : String, reverse (reverse s) = s) ∧ reverse "hello" = "olleh" := by
  constructor
  · intro s
    cases s with
    | mk data => simp [reverse]
  · rfl

/-- C10: `deactivate` and `activate` touch only the `active` field —
`id`, `name` and `email` are unchanged — setting it to `false`
respectively `true`, and each operation is idempotent. -/
theorem activate_deactivate_frame (u : User) :
    (u.deactivate.id = u.id ∧ u.deactivate.name = u.name
        ∧ u.deactivate.email = u.email ∧ u.deactivate.active = false
        ∧ u.deactivate.deactivate = u.deactivate)
      ∧ (u.activate.id = u.id ∧ u.activate.name = u.name
        ∧ u.activate.email = u.email ∧ u.activate.active = true
        ∧ u.activate.activate = u.activate) :=
  ⟨⟨rfl, rfl, rfl, rfl, rfl⟩, ⟨rfl, rfl, rfl, rfl, rfl⟩⟩

/-- Number of elements of the Rust iterator `(3..=limit).step_by(2)`:
`3, 5, 7, …` up to `limit` inclusive. -/
def oddStepCount (limit : Nat) : Nat :=
  if limit < 3 then 0 else (limit - 3) / 2 + 1

/-- `is_prime` from `src/lib.rs`. The source computes the loop bound as
`(n as f64).sqrt() as u64`; on every input below `2 ^ 52` — in
particular on the whole range the claims exercise — that expression
equals `Nat.sqrt n`, which is used here. The loop
`for i in (3..=limit).step_by(2)` returning `false` on the first
divisor is the `List.all` over the odd candidates. -/
def is_prime (n : Nat) : Bool :=
  if n < 2 then false
  else if n = 2 then true
  else if n % 2 = 0 then false
  else (List.range' 3 (oddStepCount (Nat.sqrt n)) 2).all (fun i => n % i != 0)

/-- Plain trial division, the reference the spec compares `is_prime`
against: `n` is prime iff `2 ≤ n` and no `m` with `2 ≤ m < n`
divides `n`. -/
def trialDivisionPrime (n : Nat) : Bool :=
  decide (2 ≤ n) && (List.range' 2 (n - 2)).all (fun m => n % m != 0)

lemma mem_oddStepRange (limit i : Nat) :
    i ∈ List.range' 3 (oddStepCount limit) 2 ↔ 3 ≤ i ∧ i ≤ limit ∧ i % 2 = 1 := by
  rw [List.mem_range']
  unfold oddStepCount
  constructor
  · rintro ⟨j, hj, rfl⟩
    split at hj <;> omega
  · rintro ⟨h3, hle, hodd⟩
    refine ⟨(i - 3) / 2, ?_, ?_⟩
    · split <;> omega
    · omega

lemma is_prime_odd_loop (n : Nat) (h2 : 2 < n) (hodd : n % 2 = 1) :
    (is_prime n = true ↔ ∀ i, 3 ≤ i → i ≤ Nat.sqrt n → i % 2 = 1 → ¬ (i ∣ n)) := by
  unfold is_prime
  rw [if_neg (by omega), if_neg (by omega), if_neg (by omega), List.all_eq_true]
  constructor
  · intro h i h3 hle hoddi hdvd
    have hmem := (mem_oddStepRange (Nat.sqrt n) i).mpr ⟨h3, hle, hoddi⟩
    have hne := h i hmem
    rw [bne_iff_ne] at hne
    exact hne (Nat.mod_eq_zero_of_dvd hdvd)
  · intro h i hmem
    obtain ⟨h3, hle, hoddi⟩ := (mem_oddStepRange _ i).mp hmem
    rw [bne_iff_ne]
    intro hmod
    exact h i h3 hle hoddi (Nat.dvd_iff_mod_eq_zero.mpr hmod)

lemma odd_loop_iff_prime (n : Nat) (h2 : 2 < n) (hodd : n % 2 = 1) :
    (∀ i, 3 ≤ i → i ≤ Nat.sqrt n → i % 2 = 1 → ¬ (i ∣ n)) ↔ Nat.Prime n := by
  constructor
  · intro h
    rw [Nat.prime_def_le_sqrt]
    refine ⟨by omega, fun m hm hle hdvd => ?_⟩
    rcases Nat.even_or_odd m with he | ho
    · obtain ⟨r, hr⟩ := he
      have h2d : 2 ∣ n := dvd_trans ⟨r, by omega⟩ hdvd
      omega
    · have hm3 : 3 ≤ m := by
        obtain ⟨k, hk⟩ := ho
        omega
      exact h m hm3 hle (Nat.odd_iff.mp ho) hdvd
  · intro hp i h3 hle hoddi hdvd
    have hor := hp.eq_one_or_self_of_dvd i hdvd
    have hlt : Nat.sqrt n < n := Nat.sqrt_lt_self (by omega)
    omega

lemma is_prime_iff_prime (n : Nat) : is_prime n = true ↔ Nat.Prime n := by
  rcases Nat.lt_or_ge n 2 with h | h
  · unfold is_prime
    rw [if_pos h]
    simp only [Bool.false_eq_true, false_iff]
    intro hp
    have := hp.two_le
    omega
  · rcases Nat.eq_or_lt_of_le h with rfl | h2
    · exact iff_of_true (by decide) Nat.prime_two
    · rcases Nat.even_or_odd n with he | ho
      · have heq : n % 2 = 0 := Nat.even_iff.mp he
        unfold is_prime
        rw [if_neg (by omega), if_neg (by omega), if_pos heq]
        simp only [Bool.false_eq_true, false_iff]
        intro hp
        have := (hp.eq_one_or_self_of_dvd 2 (Nat.dvd_of_mod_eq_zero heq))
        omega
      · rw [is_prime_odd_loop n h2 (Nat.odd_iff.mp ho)]
        exact odd_loop_iff_prime n h2 (Nat.odd_iff.mp ho)

lemma trialDivisionPrime_iff (n : Nat) : trialDivisionPrime n = true ↔ Nat.Prime n := by
  unfold trialDivisionPrime
  rw [Bool.and_eq_true, List.all_eq_true, decide_eq_true_iff]
  constructor
  · rintro ⟨h2, h⟩
    rw [Nat.prime_def_lt]
    refine ⟨h2, fun m hmn hdvd => ?_⟩
    by_contra hm1
    have hm0 : m ≠ 0 := by
      rintro rfl
      have := Nat.eq_zero_of_zero_dvd hdvd
      omega
    have hmem : m ∈ List.range' 2 (n - 2) := by
      rw [List.mem_range'_1]
      omega
    have hne := h m hmem
    rw [bne_iff_ne] at hne
    exact hne (Nat.mod_eq_zero_of_dvd hdvd)
  · intro hp
    refine ⟨hp.two_le, fun m hmem => ?_⟩
    rw [List.mem_range'_1] at hmem
    rw [bne_iff_ne]
    intro h0
    have hdvd := Nat.dvd_iff_mod_eq_zero.mpr h0
    have := hp.eq_one_or_self_of_dvd m hdvd
    omega

/-- C4: `is_prime` returns `false` for `n < 2`, `true` for `2`, `false`
for even `n > 2`, and for odd `n > 2` returns `true` exactly when no odd
number from `3` up to `Nat.sqrt n` inclusive divides `n`; in particular
it agrees with trial division on every `n ≤ 1000`. -/
theorem is_prime_spec (n : Nat) :
    (n < 2 → is_prime n = false)
      ∧ is_prime 2 = true
      ∧ (2 < n → n % 2 = 0 → is_prime n = false)
      ∧ (2 < n → n % 2 = 1 →
          (is_prime n = true ↔ ∀ i, 3 ≤ i → i ≤ Nat.sqrt n → i % 2 = 1 → ¬ (i ∣ n)))
      ∧ (n ≤ 1000 → is_prime n = trialDivisionPrime n) := by
  refine ⟨?_, by decide, ?_, ?_, ?_⟩
  · intro h
    unfold is_prime
    rw [if_pos h]
  · intro h2 heq
    unfold is_prime
    rw [if_neg (by omega), if_neg (by omega), if_pos heq]
  · exact fun h2 hodd => is_prime_odd_loop n h2 hodd
  · intro _
    rw [Bool.eq_iff_iff, is_prime_iff_prime, trialDivisionPrime_iff]

/-- Witness for C4 at concrete inputs. -/
theorem is_prime_spec_witness :
    (is_prime 1000 = trialDivisionPrime 1000)
      ∧ is_prime 4 = false ∧ is_prime 1 = false
      ∧ (is_prime 97 = true ↔ ∀ i, 3 ≤ i → i ≤ Nat.sqrt 97 → i % 2 = 1 → ¬ (i ∣ 97)) :=
  ⟨(is_prime_spec 1000).2.2.2.2 (by decide),
    (is_prime_spec 4).2.2.1 (by decide) (by decide),
    (is_prime_spec 1).1 (by decide),
    (is_prime_spec 97).2.2.2.1 (by decide) (by decide)⟩

/-- `char::is_ascii_uppercase` from the Rust standard library:
membership in the range `'A'..='Z'`, expressed on code points
(`'A' = 65`, `'Z' = 90`). -/
def is_ascii_uppercase (c : Char) : Bool :=
  decide (65 ≤ c.toNat) && decide (c.toNat ≤ 90)

/-- `char::to_ascii_lowercase` from the Rust standard library, as
called by `count_vowels`: ASCII uppercase letters are shifted into the
lowercase range (`+32`, the effect of setting bit `0b0010_0000`), every
other character is returned unchanged. -/
def to_ascii_lowercase (c : Char) : Char :=
  if is_ascii_uppercase c then Char.ofNat (c.toNat + 32) else c

/-- The `matches!(…, 'a' | 'e' | 'i' | 'o' | 'u')` test of
`count_vowels`. -/
def isVowelChar (c : Char) : Bool :=
  c == 'a' || c == 'e' || c == 'i' || c == 'o' || c == 'u'

/-- `string_utils::count_vowels` from `src/lib.rs`:
`s.chars().filter(|c| matches!(c.to_ascii_lowercase(), 'a' | 'e' | 'i' | 'o' | 'u')).count()`. -/
def count_vowels (s : String) : Nat :=
  (s.data.filter (fun c => isVowelChar (to_ascii_lowercase c))).length

/-- The Unicode simple lowercase mapping the spec's words require
("Unicode-normalized, not merely ASCII"), given on the characters this
development applies it to: it agrees with the ASCII mapping on ASCII
and sends the non-ASCII capital letter U+0130 (`İ`) to `i`, as
UnicodeData.txt does. -/
def unicodeLower (c : Char) : Char :=
  if c = 'İ' then 'i'
  else if is_ascii_uppercase c then Char.ofNat (c.toNat + 32)
  else c

/-- The vowel count described by the spec's words: characters whose
Unicode lowercase form is one of a/e/i/o/u. -/
def countVowelsUnicodeSpec (s : String) : Nat :=
  (s.data.filter (fun c => isVowelChar (unicodeLower c))).length

lemma char_eq_iff_toNat (a b : Char) : a = b ↔ a.toNat = b.toNat := by
  constructor
  · rintro rfl
    rfl
  · intro h
    exact Char.ext (UInt32.toNat.inj h)

lemma toNat_ofNat_valid (n : Nat) (h : n < 55296) : (Char.ofNat n).toNat = n := by
  unfold Char.ofNat
  rw [dif_pos (Or.inl h)]
  rfl

lemma vowel_ascii_pointwise (c : Char) :
    isVowelChar (to_ascii_lowercase c)
      = (c == 'a' || c == 'e' || c == 'i' || c == 'o' || c == 'u'
          || c == 'A' || c == 'E' || c == 'I' || c == 'O' || c == 'U') := by
  rw [Bool.eq_iff_iff]
  simp only [isVowelChar, Bool.or_eq_true, beq_iff_eq]
  unfold to_ascii_lowercase
  by_cases h : 65 ≤ c.toNat ∧ c.toNat ≤ 90
  · have hb : is_ascii_uppercase c = true := by
      simp only [is_ascii_uppercase, Bool.and_eq_true, decide_eq_true_iff]
      exact h
    rw [if_pos hb]
    have hval : (Char.ofNat (c.toNat + 32)).toNat = c.toNat + 32 :=
      toNat_ofNat_valid _ (by omega)
    simp only [char_eq_iff_toNat, hval,
      show ('a'.toNat) = 97 from rfl, show ('e'.toNat) = 101 from rfl,
      show ('i'.toNat) = 105 from rfl, show ('o'.toNat) = 111 from rfl,
      show ('u'.toNat) = 117 from rfl, show ('A'.toNat) = 65 from rfl,
      show ('E'.toNat) = 69 from rfl, show ('I'.toNat) = 73 from rfl,
      show ('O'.toNat) = 79 from rfl, show ('U'.toNat) = 85 from rfl]
    omega
  · have hb : ¬ is_ascii_uppercase c = true := by
      simp only [is_ascii_uppercase, Bool.and_eq_true, decide_eq_true_iff]
      exact h
    rw [if_neg hb]
    simp only [char_eq_iff_toNat,
      show ('a'.toNat) = 97 from rfl, show ('e'.toNat) = 101 from rfl,
      show ('i'.toNat) = 105 from rfl, show ('o'.toNat) = 111 from rfl,
      show ('u'.toNat) = 117 from rfl, show ('A'.toNat) = 65 from rfl,
      show ('E'.toNat) = 69 from rfl, show ('I'.toNat) = 73 from rfl,
      show ('O'.toNat) = 79 from rfl, show ('U'.toNat) = 85 from rfl]
    omega

/-- C5 counterexample: at the one-character string `"İ"` (U+0130) the
code counts `0` vowels because `to_ascii_lowercase` leaves the
non-ASCII letter unchanged, while the Unicode-lowercase count demanded
by the claim is `1` (`İ` lowercases to the vowel `i`). The conversion
in the code is merely ASCII, not Unicode-normalized. -/
theorem count_vowels_not_unicode :
    count_vowels "İ" = 0 ∧ countVowelsUnicodeSpec "İ" = 1 ∧ unicodeLower 'İ' = 'i' := by
  refine ⟨by decide, by decide, by decide⟩

/-- C5 (amended): `count_vowels s` is the number of characters of `s`
that are one of the ten ASCII letters aeiouAEIOU — case-insensitivity
holds for ASCII case conversion only, not for Unicode-normalized case
conversion — and `count_vowels "hello world" = 3`. -/
theorem count_vowels_spec (s : String) :
    count_vowels s
        = (s.data.filter (fun c =>
            c == 'a' || c == 'e' || c == 'i' || c == 'o' || c == 'u'
              || c == 'A' || c == 'E' || c == 'I' || c == 'O' || c == 'U')).length
      ∧ count_vowels "hello world" = 3 := by
  refine ⟨?_, by decide⟩
  unfold count_vowels
  congr 1
  apply List.filter_congr
  intro c _
  exact vowel_ascii_pointwise c

/-- Accumulator loop of `str::split_whitespace`: walks the characters,
collecting the current word in reverse in `cur`; a whitespace character
closes the current word (if any), and empty words are never produced. -/
def splitWsAux (ws : Char → Bool) : List Char → List Char → List (List Char)
  | [], cur => if cur.isEmpty then [] else [cur.reverse]
  | c :: cs, cur =>
    if ws c then
      if cur.isEmpty then splitWsAux ws cs []
      else cur.reverse :: splitWsAux ws cs []
    else splitWsAux ws cs (c :: cur)

/-- `str::split_whitespace`, parameterized by the whitespace class `ws`
that the Rust standard library supplies (`char::is_whitespace`). -/
def split_whitespace (ws : Char → Bool) (s : String) : List (List Char) :=
  splitWsAux ws s.data []

/-- The per-word closure of `to_title_case` in `src/lib.rs`:
`match chars.next() { None => String::new(), Some(first) =>
first.to_uppercase().collect::<String>() + chars.as_str().to_lowercase().as_str() }`,
parameterized by the case mappings (which may send one character to
several, as the Unicode mappings do). -/
def titleWord (upper lower : Char → List Char) : List Char → List Char
  | [] => []
  | first :: rest => upper first ++ rest.flatMap lower

/-- `string_utils::to_title_case` from `src/lib.rs`:
`s.split_whitespace().map(closure).collect::<Vec<String>>().join(" ")`,
parameterized by the Unicode case mappings `upper`
(`char::to_uppercase`), `lower` (`str::to_lowercase`) and the
whitespace class `ws`. -/
def to_title_case (upper lower : Char → List Char) (ws : Char → Bool) (s : String) : String :=
  String.mk (List.intercalate [' '] ((split_whitespace ws s).map (titleWord upper lower)))

/-- The transformation the spec's words describe: split on whitespace,
uppercase the first character of each word, lowercase the remainder of
each word, rejoin the words with single spaces. -/
def specTitleCase (upper lower : Char → List Char) (ws : Char → Bool) (s : String) : String :=
  String.mk (List.intercalate [' ']
    ((split_whitespace ws s).map (fun w => (w.take 1).flatMap upper ++ (w.drop 1).flatMap lower)))

/-- The Unicode uppercase mapping restricted to ASCII input, where it
is the shift of `'a'..='z'` into `'A'..='Z'` and one character maps to
one character. -/
def asciiUpperMap (c : Char) : List Char :=
  [if 97 ≤ c.toNat ∧ c.toNat ≤ 122 then Char.ofNat (c.toNat - 32) else c]

/-- The Unicode lowercase mapping restricted to ASCII input, where it
agrees with `to_ascii_lowercase` and is one-to-one. -/
def asciiLowerMap (c : Char) : List Char :=
  [to_ascii_lowercase c]

/-- The whitespace class restricted to ASCII, where
`char::is_whitespace` holds of space, tab, newline and carriage
return. -/
def asciiWs (c : Char) : Bool :=
  c == ' ' || c == '\t' || c == '\n' || c == '\r'

/-- C8: `to_title_case` splits its input on whitespace, uppercases the
first character of each word, lowercases the remainder of each word and
rejoins the words with single spaces — for every choice of the case
mappings and whitespace class, hence in particular for the Unicode ones
the Rust standard library supplies — and on ASCII input
`to_title_case "hello world" = "Hello World"`. -/
theorem to_title_case_spec :
    (∀ (upper lower : Char → List Char) (ws : Char → Bool) (s : String),
        to_title_case upper lower ws s = specTitleCase upper lower ws s)
      ∧ to_title_case asciiUpperMap asciiLowerMap asciiWs "hello world" = "Hello World" := by
  constructor
  · intro u l ws s
    unfold to_title_case specTitleCase
    have hword : ∀ w : List Char,
        titleWord u l w = (w.take 1).flatMap u ++ (w.drop 1).flatMap l := by
      intro w
      cases w with
      | nil => rfl
      | cons c rest => simp [titleWord]
    rw [List.map_congr_left (fun w _ => hword w)]
  · decide

/-- The persisted `DbUser` row of `src/db.rs`; `created_at` is the
optional timestamp the store fills in at insert. -/
structure DbUser where
  id : Int
  name : String
  email : String
  active : Bool
  created_at : Option Nat
deriving DecidableEq, Repr

/-- The relational store behind the repository of `src/db.rs`, modelled
in memory: the `users` table as a list of rows, the auto-increment
counter for `id`, and the clock value the store stamps into
`created_at`. -/
structure Store where
  rows : List DbUser
  nextId : Int
  now : Nat
deriving DecidableEq, Repr

/-- `DbUser::create` from `src/db.rs`:
`INSERT INTO users (name, email, active) VALUES ($1, $2, true)
RETURNING *` — the store assigns the generated id and the timestamp,
`active` is set to `true`, and the inserted row is returned. -/
def DbUser.create (st : Store) (name email : String) : DbUser × Store :=
  let u : DbUser :=
    { id := st.nextId, name := name, email := email, active := true
      created_at := some st.now }
  (u, { st with rows := st.rows ++ [u], nextId := st.nextId + 1 })

/-- `DbUser::find_by_id` from `src/db.rs`:
`SELECT * FROM users WHERE id = $1` with `fetch_optional` — the result
is `Except.ok` of an optional row; a miss is `ok none`, never an error.
(`Except String` mirrors `anyhow::Result`; the in-memory store has no
connectivity failures, so the error branch is never taken here.) -/
def DbUser.find_by_id (st : Store) (id : Int) : Except String (Option DbUser) :=
  Except.ok (st.rows.find? (fun u => u.id == id))

/-- `DbUser::delete` from `src/db.rs`: `DELETE FROM users WHERE id = $1`
— removes every row whose id matches (at most one, ids being unique)
and reports success whether or not a row existed. -/
def DbUser.delete (st : Store) (id : Int) : Except String Unit × Store :=
  (Except.ok (), { st with rows := st.rows.filter (fun u => u.id != id) })

/-- The error type of `src/api/mod.rs`. -/
inductive ApiError where
  | NotFound : String → ApiError
  | BadRequest : String → ApiError
  | InternalError : String → ApiError
  | DatabaseError : String → ApiError
deriving DecidableEq, Repr

/-- The `IntoResponse` mapping of `src/api/mod.rs`: the HTTP status
each error variant is surfaced with. -/
def ApiError.statusCode : ApiError → Nat
  | .NotFound _ => 404
  | .BadRequest _ => 400
  | .InternalError _ => 500
  | .DatabaseError _ => 500

/-- HTTP status of a handler result: errors map through
`ApiError.statusCode`, success responses are `200 OK`. -/
def responseStatus {α : Type} : Except ApiError α → Nat
  | .error e => e.statusCode
  | .ok _ => 200

/-- The `CreateUserRequest` payload of `src/api/handlers.rs`. -/
structure CreateUserRequest where
  name : String
  email : String
deriving DecidableEq, Repr

/-- The `UserResponse` body of `src/api/handlers.rs`. -/
structure UserResponse where
  id : Int
  name : String
  email : String
  active : Bool
deriving DecidableEq, Repr

/-- The `From<DbUser>` conversion of `src/api/handlers.rs`. -/
def UserResponse.ofDb (u : DbUser) : UserResponse :=
  { id := u.id, name := u.name, email := u.email, active := u.active }

/-- The derived `Validate` implementation of `CreateUserRequest`:
`name` must have length between `1` and `255` characters
(`#[validate(length(min = 1, max = 255))]`, the validator crate counts
characters), and `email` must satisfy the email-syntax check
`#[validate(email)]`. The email check itself lives in the external
validator crate, so it is a parameter `ve` of the model. -/
def validateCreateUser (ve : String → Bool) (r : CreateUserRequest) : Bool :=
  (decide (1 ≤ r.name.length) && decide (r.name.length ≤ 255)) && ve r.email

/-- `create_user` from `src/api/handlers.rs`: validation runs first and
short-circuits with `ApiError::BadRequest` before any store operation;
only on success does `DbUser::create` run. The handler returns the
response together with the resulting store. -/
def create_user (ve : String → Bool) (st : Store) (payload : CreateUserRequest) :
    Except ApiError UserResponse × Store :=
  if validateCreateUser ve payload then
    let r := DbUser.create st payload.name payload.email
    (Except.ok (UserResponse.ofDb r.1), r.2)
  else
    (Except.error (ApiError.BadRequest "validation error"), st)

/-- `get_user` from `src/api/handlers.rs`: a store error becomes
`DatabaseError` (500), a miss becomes `NotFound` (404), a hit is
returned as `UserResponse` (200). -/
def get_user (st : Store) (id : Int) : Except ApiError UserResponse :=
  match DbUser.find_by_id st id with
  | .error e => .error (.DatabaseError e)
  | .ok none => .error (.NotFound ("User with id " ++ toString id ++ " not found"))
  | .ok (some u) => .ok (UserResponse.ofDb u)

/-- `delete_user` from `src/api/handlers.rs`: a store error becomes
`DatabaseError` (500); otherwise the handler answers
`ApiResponse::success(())` — `200`, whether or not a row existed. -/
def delete_user (st : Store) (id : Int) : Except ApiError Unit × Store :=
  match DbUser.delete st id with
  | (.error e, st2) => (.error (.DatabaseError e), st2)
  | (.ok _, st2) => (.ok (), st2)

/-- C3: whenever the name fails the length-1-to-255 check or the email
fails the email-syntax check (whatever syntax predicate `ve` the
validator crate implements), `create_user` answers with status `400`
and performs no store operation — the store is returned exactly as it
was. -/
theorem create_user_invalid_400_no_mutation (ve : String → Bool) (st : Store)
    (r : CreateUserRequest)
    (h : ¬ (1 ≤ r.name.length ∧ r.name.length ≤ 255) ∨ ve r.email = false) :
    responseStatus (create_user ve st r).1 = 400 ∧ (create_user ve st r).2 = st := by
  have hval : validateCreateUser ve r = false := by
    cases hb : validateCreateUser ve r with
    | false => rfl
    | true =>
      exfalso
      unfold validateCreateUser at hb
      rw [Bool.and_eq_true, Bool.and_eq_true, decide_eq_true_iff, decide_eq_true_iff] at hb
      obtain ⟨⟨h1, h2⟩, h3⟩ := hb
      rcases h with h | h
      · exact h ⟨h1, h2⟩
      · rw [h] at h3
        exact Bool.false_ne_true h3
  unfold create_user
  rw [hval]
  exact ⟨rfl, rfl⟩

/-- Witness for C3: creating a user with an empty name returns `400`
and leaves the (here: empty) store untouched. -/
theorem create_user_invalid_400_no_mutation_witness :
    responseStatus (create_user (fun _ => true) ⟨[], 1, 0⟩ ⟨"", "ann@x.com"⟩).1 = 400
      ∧ (create_user (fun _ => true) ⟨[], 1, 0⟩ ⟨"", "ann@x.com"⟩).2 = ⟨[], 1, 0⟩ :=
  create_user_invalid_400_no_mutation _ _ _ (Or.inl (by decide))

/-- C6: when no row carries the requested id, the repository lookup
`find_by_id` returns `ok none` — absence, not an error — and the
`get_user` handler answers with status `404`. -/
theorem find_by_id_absent_404 (st : Store) (id : Int)
    (h : ∀ u ∈ st.rows, u.id ≠ id) :
    DbUser.find_by_id st id = Except.ok none
      ∧ responseStatus (get_user st id) = 404 := by
  have hf : st.rows.find? (fun u => u.id == id) = none := by
    rw [List.find?_eq_none]
    intro u hu
    simp only [beq_iff_eq]
    exact h u hu
  constructor
  · unfold DbUser.find_by_id
    rw [hf]
  · unfold get_user DbUser.find_by_id
    rw [hf]
    rfl

/-- Witness for C6 on a store holding one user with id `1`, queried
for id `42`. -/
theorem find_by_id_absent_404_witness :
    DbUser.find_by_id ⟨[⟨1, "Ann", "ann@x.com", true, some 0⟩], 2, 0⟩ 42 = Except.ok none
      ∧ responseStatus (get_user ⟨[⟨1, "Ann", "ann@x.com", true, some 0⟩], 2, 0⟩ 42) = 404 :=
  find_by_id_absent_404 _ 42 (by decide)

/-- C7: `delete` keeps exactly the rows whose id differs from the
requested one (so the matching row is removed and every other row is
untouched, as is the id counter), reports success, is a no-op when no
row matches, and the `delete_user` handler answers `200` and returns
the store `delete` produced. -/
theorem delete_removes_row (st : Store) (id : Int) :
    (∀ u, u ∈ (DbUser.delete st id).2.rows ↔ (u ∈ st.rows ∧ u.id ≠ id))
      ∧ (DbUser.delete st id).1 = Except.ok ()
      ∧ (DbUser.delete st id).2.nextId = st.nextId
      ∧ ((∀ u ∈ st.rows, u.id ≠ id) → (DbUser.delete st id).2 = st)
      ∧ responseStatus (delete_user st id).1 = 200
      ∧ (delete_user st id).2 = (DbUser.delete st id).2 := by
  refine ⟨?_, rfl, rfl, ?_, rfl, rfl⟩
  · intro u
    unfold DbUser.delete
    simp [List.mem_filter, bne_iff_ne]
  · intro h
    unfold DbUser.delete
    have hfix : st.rows.filter (fun u => u.id != id) = st.rows := by
      rw [List.filter_eq_self]
      intro u hu
      rw [bne_iff_ne]
      exact h u hu
    rw [hfix]

/-- Witness for C7: deleting an absent id `5` from a one-row store is a
no-op that still succeeds. -/
theorem delete_removes_row_witness :
    (DbUser.delete ⟨[⟨1, "Ann", "ann@x.com", true, some 0⟩], 2, 0⟩ 5).2
      = ⟨[⟨1, "Ann", "ann@x.com", true, some 0⟩], 2, 0⟩ :=
  (delete_removes_row _ 5).2.2.2.1 (by decide)
